import Mathlib

/-!
Shallow embedding of the Lighthouse v2 report generator
(class ReportGeneratorV2) and the v2 report renderer
(lighthouse-core/report/v2/report-renderer.js).

Host numbers are modelled by JSNum: an exact rational together with NaN and
the two infinities.  Floating point rounding of the host is not modelled; the
properties under study only concern the special-value structure and exact
small-integer arithmetic of the scoring pipeline.  The sign of zero is not
modelled: the rational zero stands for the positive zero that the additions in
this code produce.
-/

/-- A JavaScript number: a finite value (modelled exactly as a rational), NaN,
or one of the two infinities. -/
inductive JSNum where
  | fin (q : ℚ)
  | nan
  | inf
  | negInf
deriving DecidableEq, Repr

namespace JSNum

/-- JavaScript addition on numbers (IEEE special-value rules, exact on finite
values). -/
def add : JSNum → JSNum → JSNum
  | nan, _ => nan
  | _, nan => nan
  | inf, negInf => nan
  | negInf, inf => nan
  | inf, _ => inf
  | _, inf => inf
  | negInf, _ => negInf
  | _, negInf => negInf
  | fin a, fin b => fin (a + b)

/-- JavaScript multiplication on numbers (IEEE special-value rules; an infinity
times zero is NaN). -/
def mul : JSNum → JSNum → JSNum
  | nan, _ => nan
  | _, nan => nan
  | inf, fin b => if b = 0 then nan else if 0 < b then inf else negInf
  | fin a, inf => if a = 0 then nan else if 0 < a then inf else negInf
  | negInf, fin b => if b = 0 then nan else if 0 < b then negInf else inf
  | fin a, negInf => if a = 0 then nan else if 0 < a then negInf else inf
  | inf, inf => inf
  | inf, negInf => negInf
  | negInf, inf => negInf
  | negInf, negInf => inf
  | fin a, fin b => fin (a * b)

/-- JavaScript division on numbers.  Division of a nonzero finite value by the
(positive) zero gives a signed infinity, zero by zero gives NaN. -/
def div : JSNum → JSNum → JSNum
  | nan, _ => nan
  | _, nan => nan
  | inf, inf => nan
  | inf, negInf => nan
  | negInf, inf => nan
  | negInf, negInf => nan
  | inf, fin b => if b < 0 then negInf else inf
  | negInf, fin b => if b < 0 then inf else negInf
  | fin _, inf => fin 0
  | fin _, negInf => fin 0
  | fin a, fin b =>
      if b = 0 then (if a = 0 then nan else if a < 0 then negInf else inf)
      else fin (a / b)

/-- JavaScript loose order a <= b (false whenever NaN is involved). -/
def le : JSNum → JSNum → Bool
  | nan, _ => false
  | _, nan => false
  | negInf, _ => true
  | _, negInf => false
  | _, inf => true
  | inf, fin _ => false
  | fin a, fin b => decide (a ≤ b)

/-- JavaScript a >= b. -/
def ge (a b : JSNum) : Bool := le b a

/-- JavaScript a < b (false whenever NaN is involved). -/
def lt : JSNum → JSNum → Bool
  | nan, _ => false
  | _, nan => false
  | negInf, negInf => false
  | negInf, _ => true
  | _, negInf => false
  | inf, _ => false
  | fin _, inf => true
  | fin a, fin b => decide (a < b)

/-- JavaScript strict equality on numbers; NaN is not strictly equal to
anything, including itself. -/
def seq : JSNum → JSNum → Bool
  | nan, _ => false
  | _, nan => false
  | inf, inf => true
  | negInf, negInf => true
  | fin a, fin b => decide (a = b)
  | _, _ => false

/-- JavaScript truthiness of a number: 0 and NaN are falsy. -/
def truthy : JSNum → Bool
  | fin q => decide (q ≠ 0)
  | nan => false
  | inf => true
  | negInf => true

end JSNum

/-- A JavaScript value as it may appear in a score or weight field: a number,
a boolean, null, undefined (also standing for an absent field), or a string.
A string is represented by its Number() coercion (NaN for a non-numeric
string), which is the only way strings are consumed by this code. -/
inductive JSVal where
  | num (n : JSNum)
  | bool (b : Bool)
  | null
  | undef
  | str (numVal : JSNum)
deriving DecidableEq, Repr

/-- The Number() coercion. -/
def JSVal.toNumber : JSVal → JSNum
  | .num n => n
  | .bool b => .fin (if b then 1 else 0)
  | .null => .fin 0
  | .undef => .nan
  | .str p => p

/-- The idiom Number(x) || 0 from the generator: coerce to a number and
replace the falsy results (0 and NaN) by 0. -/
def coerceOrZero (v : JSVal) : JSNum :=
  if v.toNumber.truthy then v.toNumber else .fin 0

/-- The score and weight fields of an item passed to arithmeticMean. -/
structure MeanItem where
  score : JSVal
  weight : JSVal
deriving DecidableEq, Repr

/-- The reduce loop of ReportGeneratorV2.arithmeticMean: the accumulator is
the pair (weight, sum), updated left to right over the items. -/
def meanFold : List MeanItem → JSNum × JSNum → JSNum × JSNum
  | [], acc => acc
  | item :: rest, acc =>
      let score := coerceOrZero item.score
      let weight := coerceOrZero item.weight
      meanFold rest (acc.1.add weight, acc.2.add (score.mul weight))

/-- ReportGeneratorV2.arithmeticMean: the weighted average of the items, with
the final (sum / weight) || 0 guard. -/
def arithmeticMean (items : List MeanItem) : JSNum :=
  let results := meanFold items (.fin 0, .fin 0)
  let q := results.2.div results.1
  if q.truthy then q else .fin 0

/-- Audit score normalization from generateReportJson:
auditScore = Number(result.score) || 0, overridden to 100 / 0 when the raw
score is a boolean. -/
def normalizeScore (v : JSVal) : JSNum :=
  match v with
  | .bool b => if b then .fin 100 else .fin 0
  | _ => coerceOrZero v

/-- Math.round: round half toward positive infinity on finite values. -/
def jsRound : JSNum → JSNum
  | .fin q => .fin ((⌊q + 1/2⌋ : ℤ) : ℚ)
  | .nan => .nan
  | .inf => .inf
  | .negInf => .negInf

/-- A raw audit result as consumed by the generator (only the score field is
read by the scoring pipeline). -/
structure RawResult where
  score : JSVal
deriving DecidableEq, Repr

/-- An audit entry of a category of the configuration. -/
structure AuditDef where
  id : String
  weight : JSVal
deriving DecidableEq, Repr

/-- A category of the configuration. -/
structure CategoryDef where
  name : String
  description : String
  weight : JSVal
  audits : List AuditDef
deriving DecidableEq, Repr

/-- config.categories: a JavaScript object modelled as an association list in
key insertion order (the order Object.keys reports for these keys). -/
abbrev Config := List (String × CategoryDef)

/-- resultsByAuditId: a JavaScript object used only through property lookup,
modelled as an association list queried with List.lookup. -/
abbrev ResultsMap := List (String × RawResult)

/-- An audit merged with its raw result and normalized score. -/
structure ScoredAudit where
  id : String
  weight : JSVal
  result : RawResult
  score : JSNum
deriving DecidableEq, Repr

/-- A category merged with its scored audits and rounded score. -/
structure ScoredCategory where
  name : String
  description : String
  weight : JSVal
  audits : List ScoredAudit
  score : JSNum
deriving DecidableEq, Repr

/-- The root output of generateReportJson. -/
structure ReportScoreTree where
  score : JSNum
  categories : List ScoredCategory
deriving DecidableEq, Repr

/-- The fields of a scored audit that arithmeticMean reads. -/
def ScoredAudit.meanItem (a : ScoredAudit) : MeanItem := ⟨.num a.score, a.weight⟩

/-- The fields of a scored category that arithmeticMean reads. -/
def ScoredCategory.meanItem (c : ScoredCategory) : MeanItem := ⟨.num c.score, c.weight⟩

/-- Property lookup on the resultsByAuditId object: the value stored under a
key, none when the key is absent. -/
def lookupId (results : ResultsMap) (id : String) : Option RawResult :=
  match results with
  | [] => none
  | (k, v) :: rest => if k = id then some v else lookupId rest id

/-- The inner audits map of generateReportJson: for each configured audit look
up its raw result and attach the normalized score.  An absent entry makes the
host code throw a TypeError on the score access; this is modelled by none. -/
def scoreAudits (results : ResultsMap) : List AuditDef → Option (List ScoredAudit)
  | [] => some []
  | audit :: rest => do
      let result ← lookupId results audit.id
      let scored : ScoredAudit := ⟨audit.id, audit.weight, result, normalizeScore result.score⟩
      let others ← scoreAudits results rest
      some (scored :: others)

/-- The outer categories map of generateReportJson: score the audits of each
category and round the weighted mean of their scores. -/
def scoreCategories (results : ResultsMap) : Config → Option (List ScoredCategory)
  | [] => some []
  | (_, category) :: rest => do
      let audits ← scoreAudits results category.audits
      let categoryScore := jsRound (arithmeticMean (audits.map ScoredAudit.meanItem))
      let others ← scoreCategories results rest
      some (⟨category.name, category.description, category.weight, audits, categoryScore⟩ :: others)

/-- ReportGeneratorV2.generateReportJson: the scored categories in
configuration order, and the unrounded weighted mean of their scores. -/
def generateReportJson (config : Config) (results : ResultsMap) : Option ReportScoreTree := do
  let categories ← scoreCategories results config
  let overallScore := arithmeticMean (categories.map ScoredCategory.meanItem)
  some ⟨overallScore, categories⟩

/-!
The renderer (report-renderer.js).  The host DOM is modelled by a tree of
elements; the class list of an element is kept as a list of class names
(classList), and the CSS class selectors used by the renderer are modelled by
first-match pre-order search on that tree.  Exceptions are modelled by Except.
-/

/-- A host error.  The stack text is modelled as the error description behind
the usual Error: banner; the host-dependent trace frames are not modelled. -/
structure JSError where
  message : String
deriving DecidableEq, Repr

/-- The text that String(e.stack) produces for an error in this model. -/
def JSError.stack (e : JSError) : String := "Error: " ++ e.message

/-- A host visual element: tag name, class list, attributes, text content, the
open property used on the expandable header, and child elements. -/
inductive Element where
  | el (tagName : String) (classes : List String) (attrs : List (String × String))
      (textContent : String) (isOpen : Bool) (children : List Element)

namespace Element

def tagName : Element → String
  | .el t _ _ _ _ _ => t

def classes : Element → List String
  | .el _ c _ _ _ _ => c

def attrs : Element → List (String × String)
  | .el _ _ a _ _ _ => a

def textContent : Element → String
  | .el _ _ _ x _ _ => x

def isOpen : Element → Bool
  | .el _ _ _ _ o _ => o

def children : Element → List Element
  | .el _ _ _ _ _ c => c

/-- Assignment of textContent. -/
def withText (e : Element) (text : String) : Element :=
  .el e.tagName e.classes e.attrs text e.isOpen e.children

/-- Assignment of the open property. -/
def withOpen (e : Element) (o : Bool) : Element :=
  .el e.tagName e.classes e.attrs e.textContent o e.children

def withChildren (e : Element) (cs : List Element) : Element :=
  .el e.tagName e.classes e.attrs e.textContent e.isOpen cs

/-- appendChild: the new child goes last. -/
def appendChild (e child : Element) : Element :=
  e.withChildren (e.children ++ [child])

/-- classList.add with a single class: appended unless already present. -/
def addClass (e : Element) (cls : String) : Element :=
  if cls ∈ e.classes then e
  else .el e.tagName (e.classes ++ [cls]) e.attrs e.textContent e.isOpen e.children

/-- Membership test behind a class selector. -/
def hasClass (cls : String) (e : Element) : Bool := cls ∈ e.classes

end Element

/-- DOM.createElement: a fresh element with the given tag, a single optional
class (the renderer only ever passes one) and attributes.  The absent class
argument of the source is modelled by the empty string. -/
def createElement (name className : String) (attrs : List (String × String)) : Element :=
  .el name (if className = "" then [] else [className]) attrs "" false []

mutual

/-- Update of the first element, in pre-order document order, that carries the
given class; none when no such element exists.  This models a querySelector
for a class followed by a mutation of the found element. -/
def updateByClassEl (cls : String) (f : Element → Element) : Element → Option Element
  | .el t c a x o children =>
      if Element.hasClass cls (.el t c a x o children) then some (f (.el t c a x o children))
      else
        match updateByClassList cls f children with
        | some cs => some (.el t c a x o cs)
        | none => none

/-- Helper of updateByClassEl over a child list. -/
def updateByClassList (cls : String) (f : Element → Element) : List Element → Option (List Element)
  | [] => none
  | child :: rest =>
      match updateByClassEl cls f child with
      | some c2 => some (c2 :: rest)
      | none =>
          match updateByClassList cls f rest with
          | some rest2 => some (child :: rest2)
          | none => none

end

/-- The DOM.setText / DOM.addClass pattern of the renderer: mutate the first
element matching the class selector, and do nothing when the selector finds
nothing (the DOM helpers accept a null element). -/
def updateByClass (cls : String) (f : Element → Element) (root : Element) : Element :=
  (updateByClassEl cls f root).getD root

mutual

/-- querySelector for a class selector: the first matching element in
pre-order, none when absent. -/
def findByClass (cls : String) : Element → Option Element
  | .el t c a x o children =>
      if Element.hasClass cls (.el t c a x o children) then some (.el t c a x o children)
      else findByClassList cls children

/-- Helper of findByClass over a child list. -/
def findByClassList (cls : String) : List Element → Option Element
  | [] => none
  | child :: rest =>
      match findByClass cls child with
      | some e => some e
      | none => findByClassList cls rest

end

/-- The host document: only its named templates are consulted by the
renderer, through querySelector on a template selector. -/
structure Document where
  templates : String → Option Element

/-- DOM.cloneTemplate: a clone of the template content for the selector, or a
thrown Error when the document has no such template. -/
def cloneTemplate (dom : Document) (selector : String) : Except JSError Element :=
  match dom.templates selector with
  | some content => .ok content
  | none => .error ⟨"Template not found: template" ++ selector⟩

/-- The RATINGS table of the renderer. -/
def RATINGS_PASS_label : String := "pass"

def RATINGS_PASS_minScore : JSNum := .fin 75

def RATINGS_AVERAGE_label : String := "average"

def RATINGS_AVERAGE_minScore : JSNum := .fin 45

def RATINGS_FAIL_label : String := "fail"

/-- calculateRating: the numeric precision compares the score against the
PASS and AVERAGE thresholds; the grade precision has no behavior yet, and it
and every other precision fall through to the binary default, a strict
comparison of the score with 100. -/
def calculateRating (score : JSNum) (precision : String) : String :=
  if precision = "numeric" then
    let rating := RATINGS_FAIL_label
    let rating :=
      if score.ge RATINGS_PASS_minScore then RATINGS_PASS_label
      else if score.ge RATINGS_AVERAGE_minScore then RATINGS_AVERAGE_label
      else rating
    rating
  else
    if score.seq (.fin 100) then RATINGS_PASS_label else RATINGS_FAIL_label

/-- formatNumber delegates to the host locale formatting (toLocaleString with
at most one fraction digit); the exact text is host behavior and no property
under study depends on it, so the model renders the number plainly. -/
def formatNumber : JSNum → String
  | .fin q => toString q
  | .nan => "NaN"
  | .inf => "∞"
  | .negInf => "-∞"

/-- A details payload node: the type tag, the text carried by text nodes, the
optional header node of a list, and the child items of a block or list. -/
inductive DetailsJSON where
  | node (type : String) (text : String) (header : Option DetailsJSON)
      (items : List DetailsJSON)

def DetailsJSON.type : DetailsJSON → String
  | .node ty _ _ _ => ty

def DetailsJSON.text : DetailsJSON → String
  | .node _ tx _ _ => tx

def DetailsJSON.header : DetailsJSON → Option DetailsJSON
  | .node _ _ hd _ => hd

def DetailsJSON.items : DetailsJSON → List DetailsJSON
  | .node _ _ _ its => its

mutual

/-- ReportRenderer._renderDetails: dispatch on the type tag; an unknown tag
throws a descriptive Error at the point of detection.  The text, block and
list branches inline _renderText, _renderBlock and _renderList. -/
def _renderDetails (dom : Document) (details : DetailsJSON) : Except JSError Element :=
  match details with
  | .node ty tx hd its =>
      if ty = "text" then
        .ok ((createElement "div" "lighthouse-text" []).withText tx)
      else if ty = "block" then
        match _renderDetailsList dom its with
        | .ok cs => .ok ((createElement "div" "lighthouse-block" []).withChildren cs)
        | .error e => .error e
      else if ty = "list" then
        match _renderDetailsList dom its with
        | .ok cs =>
            let element := createElement "details" "lighthouse-list" []
            let element :=
              match hd with
              | some h =>
                  element.appendChild
                    ((createElement "summary" "lighthouse-list__header" []).withText h.text)
              | none => element
            let itemsEl := (createElement "div" "lighthouse-list__items" []).withChildren cs
            .ok (element.appendChild itemsEl)
        | .error e => .error e
      else
        .error ⟨"Unknown type: " ++ ty⟩

/-- The child loops of _renderBlock and _renderList: children are rendered in
order and the first thrown error aborts the loop. -/
def _renderDetailsList (dom : Document) : List DetailsJSON → Except JSError (List Element)
  | [] => .ok []
  | d :: ds =>
      match _renderDetails dom d with
      | .ok e =>
          match _renderDetailsList dom ds with
          | .ok es => .ok (e :: es)
          | .error er => .error er
      | .error er => .error er

end

/-- The result object of a rendered audit; absent optional fields are modelled
by none. -/
structure AuditResult where
  description : String
  displayValue : Option String
  optimalValue : Option String
  helpText : String
  details : Option DetailsJSON

/-- An audit of the rendered report JSON. -/
structure AuditJSON where
  id : String
  weight : JSVal
  score : JSNum
  result : AuditResult

/-- A category of the rendered report JSON. -/
structure CategoryJSON where
  name : String
  description : String
  weight : JSVal
  score : JSNum
  audits : List AuditJSON

/-- The rendered report JSON. -/
structure ReportJSON where
  reportCategories : List CategoryJSON

/-- The fourth argument of _renderScore: an audit (which carries a result
property) or a category (which does not). -/
inductive AuditOrCategory where
  | audit (a : AuditJSON)
  | category (c : CategoryJSON)

/-- The result-in-auditOrCategory test of _renderScore: audits carry a result
property, categories do not. -/
def AuditOrCategory.isAudit : AuditOrCategory → Bool
  | .audit _ => true
  | .category _ => false

/-- The details payload reached through auditOrCategory.result.details; only
read behind the isAudit test. -/
def AuditOrCategory.details : AuditOrCategory → Option DetailsJSON
  | .audit a => a.result.details
  | .category _ => none

/-- The precision chosen by _renderScore: binary for an audit and the
placeholder string category otherwise (the TODO line of the source). -/
def _renderScorePrecision (auditOrCategory : AuditOrCategory) : String :=
  if auditOrCategory.isAudit then "binary" else "category"

/-- ReportRenderer._renderScore: pick the precision and rating, clone the
audit or category score template, fill in value, title and description, and
for audits open the expandable header on a failing score and attach the
rendered details subtree to it when present. -/
def _renderScore (dom : Document) (score : JSNum) (title description : String)
    (auditOrCategory : AuditOrCategory) : Except JSError Element := do
  let isAudit := auditOrCategory.isAudit
  let precision := _renderScorePrecision auditOrCategory
  let rating := calculateRating score precision
  let tmpl ←
    if isAudit then cloneTemplate dom "#tmpl-lighthouse-audit-score"
    else cloneTemplate dom "#tmpl-lighthouse-category-score"
  let tmpl := updateByClass "lighthouse-score__value"
    (fun e =>
      ((e.withText (formatNumber score)).addClass
          ("lighthouse-score__value--" ++ rating)).addClass
        ("lighthouse-score__value--" ++ precision)) tmpl
  let tmpl := updateByClass "lighthouse-score__title" (fun e => e.withText title) tmpl
  let tmpl := updateByClass "lighthouse-score__description" (fun e => e.withText description) tmpl
  if isAudit && (findByClass "lighthouse-score__header" tmpl).isSome then
    let tmpl := updateByClass "lighthouse-score__header"
      (fun e => e.withOpen (score.lt (.fin 100))) tmpl
    match auditOrCategory.details with
    | some d => do
        let detailsEl ← _renderDetails dom d
        pure (updateByClass "lighthouse-score__header" (fun e => e.appendChild detailsEl) tmpl)
    | none => pure tmpl
  else
    pure tmpl

/-- The title composition of _renderAudit: the description, a colon and two
spaces plus the display value when that field is truthy, and a target suffix
when the optimal value is truthy. -/
def renderAuditTitle (result : AuditResult) : String :=
  let title := result.description
  let title :=
    match result.displayValue with
    | some v => if v = "" then title else title ++ ":  " ++ v
    | none => title
  match result.optimalValue with
  | some v => if v = "" then title else title ++ " (target: " ++ v ++ ")"
  | none => title

/-- ReportRenderer._renderAudit. -/
def _renderAudit (dom : Document) (audit : AuditJSON) : Except JSError Element := do
  let title := renderAuditTitle audit.result
  let scoreEl ← _renderScore dom audit.score title audit.result.helpText (.audit audit)
  pure ((createElement "div" "lighthouse-audit" []).appendChild scoreEl)

/-- ReportRenderer._renderCategory. -/
def _renderCategory (dom : Document) (category : CategoryJSON) : Except JSError Element := do
  let scoreEl ← _renderScore dom category.score category.name category.description
    (.category category)
  let auditEls ← category.audits.mapM (_renderAudit dom)
  pure (auditEls.foldl Element.appendChild
    ((createElement "div" "lighthouse-category" []).appendChild scoreEl))

/-- ReportRenderer._renderException: a visible element whose text is the
stack of the caught error. -/
def _renderException (e : JSError) : Element :=
  (createElement "div" "lighthouse-exception" []).withText e.stack

/-- ReportRenderer._renderReport: the category containers in order. -/
def _renderReport (dom : Document) (report : ReportJSON) : Except JSError Element := do
  let categoryEls ← report.reportCategories.mapM (_renderCategory dom)
  pure (categoryEls.foldl Element.appendChild (createElement "div" "lighthouse-report" []))

/-- ReportRenderer.renderReport: the single try / catch boundary around the
recursive render. -/
def renderReport (dom : Document) (report : ReportJSON) : Element :=
  match _renderReport dom report with
  | .ok e => e
  | .error err => _renderException err

/-- A sample audit score template: value, title, description and the
expandable header. -/
def sampleAuditTmpl : Element :=
  .el "div" [] [] "" false
    [.el "div" ["lighthouse-score__value"] [] "" false [],
     .el "div" ["lighthouse-score__title"] [] "" false [],
     .el "div" ["lighthouse-score__description"] [] "" false [],
     .el "details" ["lighthouse-score__header"] [] "" false []]

/-- A sample category score template. -/
def sampleCategoryTmpl : Element :=
  .el "div" [] [] "" false
    [.el "div" ["lighthouse-score__value"] [] "" false [],
     .el "div" ["lighthouse-score__title"] [] "" false [],
     .el "div" ["lighthouse-score__description"] [] "" false []]

/-- A sample document holding both score templates. -/
def sampleDoc : Document :=
  ⟨fun s =>
    if s = "#tmpl-lighthouse-audit-score" then some sampleAuditTmpl
    else if s = "#tmpl-lighthouse-category-score" then some sampleCategoryTmpl
    else none⟩

/-- A details node with the unknown tag graph. -/
def graphNode : DetailsJSON := .node "graph" "" none []

/-- A report with one category and one audit whose details carry the unknown
graph tag. -/
def sampleReport : ReportJSON :=
  ⟨[⟨"Perf", "desc", .num (.fin 1), .fin 80,
     [⟨"a", .num (.fin 1), .fin 50, ⟨"Audit A", none, none, "help", some graphNode⟩⟩]⟩]⟩

/-!
ReportGeneratorV2.replaceStrings.  Host strings are modelled as character
lists so splitting and joining can be reasoned about positionally.
-/

/-- The first occurrence of a nonempty pattern in a string: the part before
the occurrence and the part after it, or none when the pattern does not
occur. -/
def firstOcc (sep : List Char) : List Char → Option (List Char × List Char)
  | [] => none
  | c :: rest =>
      if sep.isPrefixOf (c :: rest) then some ([], (c :: rest).drop sep.length)
      else
        match firstOcc sep rest with
        | some (pre, post) => some (c :: pre, post)
        | none => none

/-- The split loop on a nonempty separator: peel leftmost non-overlapping
occurrences.  The fuel only serves termination; one unit per occurrence
consumed, so any fuel above the string length is enough. -/
def splitGoF : Nat → List Char → List Char → List (List Char)
  | 0, _, s => [s]
  | fuel + 1, sep, s =>
      match firstOcc sep s with
      | none => [s]
      | some (pre, post) => pre :: splitGoF fuel sep post

/-- String.prototype.split with a string separator: the parts between
leftmost non-overlapping occurrences of the separator; the empty separator
splits into single characters. -/
def jsSplit (sep s : List Char) : List (List Char) :=
  if sep.isEmpty then s.map (fun c => [c]) else splitGoF (s.length + 1) sep s

/-- Array.prototype.join with a string separator. -/
def joinWith (sep : List Char) : List (List Char) → List Char
  | [] => []
  | [x] => x
  | x :: xs => x ++ sep ++ joinWith sep xs

/-- The recursion of ReportGeneratorV2.replaceStrings, with the replacement
list first so the recursion is structural: split the source on the first
search pattern, apply the remaining replacements to each part, and join the
parts with the first replacement text. -/
def replaceStringsFn : List (List Char × List Char) → List Char → List Char
  | [], source => source
  | (search, replacement) :: rest, source =>
      joinWith replacement ((jsSplit search source).map (replaceStringsFn rest))

/-- ReportGeneratorV2.replaceStrings with the argument order of the source. -/
def replaceStrings (source : List Char) (replacements : List (List Char × List Char)) :
    List Char :=
  replaceStringsFn replacements source

/-!
Helper lemmas about the scoring primitive.
-/

lemma coerceOrZero_ne_nan (v : JSVal) : coerceOrZero v ≠ .nan := by
  unfold coerceOrZero
  split
  · next h =>
    intro hn
    rw [hn] at h
    simp [JSNum.truthy] at h
  · simp

lemma arithmeticMean_ne_nan (items : List MeanItem) : arithmeticMean items ≠ .nan := by
  simp only [arithmeticMean]
  split
  · next h =>
    intro hn
    rw [hn] at h
    simp [JSNum.truthy] at h
  · simp

lemma meanFold_weight_total (items : List MeanItem) :
    ∀ (A : ℚ) (S : JSNum),
      (∀ it ∈ items, ∃ w : ℚ, coerceOrZero it.weight = .fin w ∧ 0 ≤ w) →
      ∃ W : ℚ, (meanFold items (.fin A, S)).1 = .fin W ∧ A ≤ W ∧
        (W ≤ A → ∀ it ∈ items, coerceOrZero it.weight = .fin 0) := by
  induction items with
  | nil =>
    intro A S _
    exact ⟨A, rfl, le_refl A, fun _ it hit => absurd hit (List.not_mem_nil it)⟩
  | cons it rest ih =>
    intro A S h
    obtain ⟨w, hw, hw0⟩ := h it (List.mem_cons_self it rest)
    have hstep : meanFold (it :: rest) (.fin A, S)
        = meanFold rest (.fin (A + w),
            S.add ((coerceOrZero it.score).mul (coerceOrZero it.weight))) := by
      simp [meanFold, hw, JSNum.add]
    obtain ⟨W, hW, hAW, hzero⟩ :=
      ih (A + w) (S.add ((coerceOrZero it.score).mul (coerceOrZero it.weight)))
        (fun x hx => h x (List.mem_cons_of_mem _ hx))
    refine ⟨W, by rw [hstep]; exact hW, by linarith, ?_⟩
    intro hWA x hx
    have hwz : w = 0 := by linarith
    rcases List.mem_cons.mp hx with h1 | h2
    · rw [h1, hw, hwz]
    · exact hzero (by linarith) x h2

lemma meanFold_zero_weights (items : List MeanItem) :
    ∀ S : JSNum, (S = .fin 0 ∨ S = .nan) →
      (∀ it ∈ items, coerceOrZero it.weight = .fin 0) →
      (meanFold items (.fin 0, S)).1 = .fin 0 ∧
        ((meanFold items (.fin 0, S)).2 = .fin 0 ∨ (meanFold items (.fin 0, S)).2 = .nan) := by
  induction items with
  | nil =>
    intro S hS _
    exact ⟨rfl, hS⟩
  | cons it rest ih =>
    intro S hS h
    have hw := h it (List.mem_cons_self it rest)
    have hadd : (JSNum.fin 0).add (coerceOrZero it.weight) = .fin 0 := by
      rw [hw]; simp [JSNum.add]
    have hS2 : S.add ((coerceOrZero it.score).mul (coerceOrZero it.weight)) = .fin 0 ∨
        S.add ((coerceOrZero it.score).mul (coerceOrZero it.weight)) = .nan := by
      rw [hw]
      have hnn := coerceOrZero_ne_nan it.score
      rcases hcs : coerceOrZero it.score with q | _ | _ | _
      · rcases hS with rfl | rfl <;> simp [JSNum.mul, JSNum.add]
      · exact absurd hcs hnn
      · rcases hS with rfl | rfl <;> simp [JSNum.mul, JSNum.add]
      · rcases hS with rfl | rfl <;> simp [JSNum.mul, JSNum.add]
    have hstep : meanFold (it :: rest) (.fin 0, S)
        = meanFold rest (.fin 0,
            S.add ((coerceOrZero it.score).mul (coerceOrZero it.weight))) := by
      simp [meanFold, hadd]
    rw [hstep]
    exact ih _ hS2 (fun x hx => h x (List.mem_cons_of_mem _ hx))

/-- C2 (counterexample): two items whose coerced weights (1 and -1) sum to
zero, but whose weighted sum is -10: arithmeticMean divides -10 by the zero
total weight and returns negative infinity, not 0. -/
theorem arithmeticMean_cancelling_weights_cex :
    (meanFold [⟨.num (.fin 10), .num (.fin 1)⟩, ⟨.num (.fin 20), .num (.fin (-1))⟩]
      (.fin 0, .fin 0)).1 = .fin 0 ∧
    arithmeticMean [⟨.num (.fin 10), .num (.fin 1)⟩, ⟨.num (.fin 20), .num (.fin (-1))⟩]
      = .negInf ∧
    JSNum.negInf ≠ .fin 0 := by
  refine ⟨?_, ?_, by decide⟩ <;>
    norm_num [arithmeticMean, meanFold, coerceOrZero, JSVal.toNumber, JSNum.truthy,
      JSNum.add, JSNum.mul, JSNum.div]

/-- C2 (amended): for every sequence of items whose coerced weights are
nonnegative finite numbers and sum to 0 (in particular the empty sequence),
arithmeticMean returns exactly 0 and never divides by zero; with negative
weights that cancel a nonzero weighted sum, the division by the zero total
weight instead yields an infinite value. -/
theorem arithmeticMean_zero_total_weight (items : List MeanItem)
    (hw : ∀ it ∈ items, ∃ w : ℚ, coerceOrZero it.weight = .fin w ∧ 0 ≤ w)
    (h0 : (meanFold items (.fin 0, .fin 0)).1 = .fin 0) :
    arithmeticMean items = .fin 0 := by
  obtain ⟨W, hW, hAW, hzero⟩ := meanFold_weight_total items 0 (.fin 0) hw
  rw [hW] at h0
  injection h0 with hW0
  have hall := hzero (le_of_eq hW0)
  obtain ⟨h1, h2⟩ := meanFold_zero_weights items (.fin 0) (Or.inl rfl) hall
  simp only [arithmeticMean]
  rcases h2 with h2 | h2 <;> simp [h1, h2, JSNum.div, JSNum.truthy]

/-- C2 (witness): the empty sequence has total weight 0 and mean 0. -/
theorem arithmeticMean_zero_total_weight_witness :
    arithmeticMean [] = .fin 0 :=
  arithmeticMean_zero_total_weight [] (by simp) rfl

/-- C5 (counterexample): an item with an infinite score and weight 1 is not
treated as score 0: the infinity propagates to the result of arithmeticMean. -/
theorem arithmeticMean_propagates_infinity_cex :
    arithmeticMean [⟨.num .inf, .num (.fin 1)⟩] = .inf ∧ JSNum.inf ≠ .fin 0 := by
  refine ⟨?_, by decide⟩
  norm_num [arithmeticMean, meanFold, coerceOrZero, JSVal.toNumber, JSNum.truthy,
    JSNum.add, JSNum.mul, JSNum.div]

/-- C5 (amended): a score or weight field that is null, undefined, NaN, or a
non-numeric string is treated as 0 by the field coercion of arithmeticMean;
the function never throws (it is total) and never returns NaN; an infinite
field value is however kept and can propagate to the result. -/
theorem arithmeticMean_malformed_fields (v : JSVal)
    (hv : v = .null ∨ v = .undef ∨ v = .num .nan ∨ v = .str .nan) :
    coerceOrZero v = .fin 0 ∧ ∀ items : List MeanItem, arithmeticMean items ≠ .nan := by
  refine ⟨?_, arithmeticMean_ne_nan⟩
  rcases hv with rfl | rfl | rfl | rfl <;> rfl

/-- C5 (witness): the undefined score of an absent field coerces to 0, and no
mean is NaN. -/
theorem arithmeticMean_malformed_fields_witness :
    coerceOrZero .undef = .fin 0 ∧ ∀ items : List MeanItem, arithmeticMean items ≠ .nan :=
  arithmeticMean_malformed_fields .undef (Or.inr (Or.inl rfl))

/-- C7: the normalized audit score maps the boolean true to 100 and false to
0, keeps a value that coerces to a finite nonzero number, and maps undefined
(an absent field), null, NaN and non-numeric strings to 0. -/
theorem normalizeScore_spec :
    normalizeScore (.bool true) = .fin 100 ∧
    normalizeScore (.bool false) = .fin 0 ∧
    (∀ (v : JSVal) (q : ℚ), q ≠ 0 → v.toNumber = .fin q → (∀ b, v ≠ .bool b) →
      normalizeScore v = .fin q) ∧
    normalizeScore .undef = .fin 0 ∧
    normalizeScore .null = .fin 0 ∧
    normalizeScore (.num .nan) = .fin 0 ∧
    normalizeScore (.str .nan) = .fin 0 := by
  refine ⟨rfl, rfl, ?_, rfl, rfl, rfl, rfl⟩
  intro v q hq htn hnb
  cases v with
  | num n =>
    simp only [JSVal.toNumber] at htn
    subst htn
    simp [normalizeScore, coerceOrZero, JSVal.toNumber, JSNum.truthy, hq]
  | bool b => exact absurd rfl (hnb b)
  | null =>
    simp only [JSVal.toNumber, JSNum.fin.injEq] at htn
    exact absurd htn.symm hq
  | undef => exact JSNum.noConfusion htn
  | str p =>
    simp only [JSVal.toNumber] at htn
    subst htn
    simp [normalizeScore, coerceOrZero, JSVal.toNumber, JSNum.truthy, hq]

/-- C7 (witness): a raw numeric score 92 normalizes to 92. -/
theorem normalizeScore_spec_witness :
    normalizeScore (.num (.fin 92)) = .fin 92 :=
  normalizeScore_spec.2.2.1 (.num (.fin 92)) 92 (by norm_num) rfl
    (fun b h => JSVal.noConfusion h)

lemma scoreAudits_isSome (results : ResultsMap) :
    ∀ audits : List AuditDef, (∀ a ∈ audits, (lookupId results a.id).isSome) →
      (scoreAudits results audits).isSome := by
  intro audits
  induction audits with
  | nil => intro _; simp [scoreAudits]
  | cons a rest ih =>
    intro h
    obtain ⟨r, hr⟩ := Option.isSome_iff_exists.mp (h a (List.mem_cons_self a rest))
    obtain ⟨others, hothers⟩ :=
      Option.isSome_iff_exists.mp (ih (fun x hx => h x (List.mem_cons_of_mem _ hx)))
    simp [scoreAudits, hr, hothers]

lemma scoreCategories_isSome (results : ResultsMap) :
    ∀ config : Config, (∀ p ∈ config, ∀ a ∈ p.2.audits, (lookupId results a.id).isSome) →
      (scoreCategories results config).isSome := by
  intro config
  induction config with
  | nil => intro _; simp [scoreCategories]
  | cons p rest ih =>
    intro h
    obtain ⟨k, category⟩ := p
    obtain ⟨audits, haudits⟩ := Option.isSome_iff_exists.mp
      (scoreAudits_isSome results category.audits
        (h (k, category) (List.mem_cons_self _ rest)))
    obtain ⟨others, hothers⟩ :=
      Option.isSome_iff_exists.mp (ih (fun x hx => h x (List.mem_cons_of_mem _ hx)))
    simp [scoreCategories, haudits, hothers]

/-- C8: under the precondition that every configured audit id has an entry in
the results mapping, generateReportJson is total: whatever the shape of the
stored score values and configured weights, it returns a report tree. -/
theorem generateReportJson_total (config : Config) (results : ResultsMap)
    (h : ∀ p ∈ config, ∀ a ∈ p.2.audits, (lookupId results a.id).isSome) :
    ∃ tree, generateReportJson config results = some tree := by
  obtain ⟨cats, hcats⟩ :=
    Option.isSome_iff_exists.mp (scoreCategories_isSome results config h)
  exact ⟨⟨arithmeticMean (cats.map ScoredCategory.meanItem), cats⟩,
    by simp [generateReportJson, hcats]⟩

/-- C8 (witness): a configuration with an undefined and a NaN-string weight,
and results holding a null score and a boolean score, still produces a tree. -/
theorem generateReportJson_total_witness :
    ∃ tree, generateReportJson
      [("cat", ⟨"Cat", "", .undef, [⟨"x", .undef⟩, ⟨"y", .str .nan⟩]⟩)]
      [("x", ⟨.null⟩), ("y", ⟨.bool false⟩)] = some tree :=
  generateReportJson_total _ _ (by decide)

lemma meanFold_bounds (items : List MeanItem) :
    ∀ (W S : ℚ), 0 ≤ W → 0 ≤ S → S ≤ 100 * W →
      (∀ it ∈ items,
        (∃ s : ℚ, coerceOrZero it.score = .fin s ∧ 0 ≤ s ∧ s ≤ 100) ∧
        (∃ w : ℚ, coerceOrZero it.weight = .fin w ∧ 0 ≤ w)) →
      ∃ W2 S2 : ℚ, meanFold items (.fin W, .fin S) = (.fin W2, .fin S2) ∧
        0 ≤ W2 ∧ 0 ≤ S2 ∧ S2 ≤ 100 * W2 := by
  induction items with
  | nil =>
    intro W S hW hS hSW _
    exact ⟨W, S, rfl, hW, hS, hSW⟩
  | cons it rest ih =>
    intro W S hW hS hSW h
    obtain ⟨⟨s, hs, hs0, hs100⟩, ⟨w, hw, hw0⟩⟩ := h it (List.mem_cons_self it rest)
    have hstep : meanFold (it :: rest) (.fin W, .fin S)
        = meanFold rest (.fin (W + w), .fin (S + s * w)) := by
      simp [meanFold, hs, hw, JSNum.add, JSNum.mul]
    rw [hstep]
    exact ih (W + w) (S + s * w) (by linarith)
      (add_nonneg hS (mul_nonneg hs0 hw0)) (by nlinarith)
      (fun x hx => h x (List.mem_cons_of_mem _ hx))

lemma arithmeticMean_bounds (items : List MeanItem)
    (h : ∀ it ∈ items,
      (∃ s : ℚ, coerceOrZero it.score = .fin s ∧ 0 ≤ s ∧ s ≤ 100) ∧
      (∃ w : ℚ, coerceOrZero it.weight = .fin w ∧ 0 ≤ w)) :
    ∃ q : ℚ, arithmeticMean items = .fin q ∧ 0 ≤ q ∧ q ≤ 100 := by
  obtain ⟨W2, S2, hfold, hW2, hS2, hSW2⟩ :=
    meanFold_bounds items 0 0 le_rfl le_rfl (by norm_num) h
  simp only [arithmeticMean, hfold]
  by_cases hW0 : W2 = 0
  · have hS0 : S2 = 0 := le_antisymm (by nlinarith) hS2
    subst hW0
    subst hS0
    exact ⟨0, by simp [JSNum.div, JSNum.truthy], le_rfl, by norm_num⟩
  · have hWpos : 0 < W2 := lt_of_le_of_ne hW2 (Ne.symm hW0)
    have hdiv : (JSNum.fin S2).div (.fin W2) = .fin (S2 / W2) := by
      simp [JSNum.div, hW0]
    rw [hdiv]
    have hq0 : 0 ≤ S2 / W2 := div_nonneg hS2 (le_of_lt hWpos)
    have hq100 : S2 / W2 ≤ 100 := by
      rw [div_le_iff₀ hWpos]
      nlinarith
    by_cases hqz : S2 / W2 = 0
    · exact ⟨0, by simp [JSNum.truthy, hqz], le_rfl, by norm_num⟩
    · exact ⟨S2 / W2, by simp [JSNum.truthy, hqz], hq0, hq100⟩

lemma jsRound_int_bounds (q : ℚ) (h0 : 0 ≤ q) (h100 : q ≤ 100) :
    ∃ n : ℤ, jsRound (.fin q) = .fin (n : ℚ) ∧ 0 ≤ n ∧ n ≤ 100 := by
  refine ⟨⌊q + 1/2⌋, rfl, Int.le_floor.mpr (by push_cast; linarith), ?_⟩
  have hmono : (⌊q + 1/2⌋ : ℤ) ≤ ⌊(100 : ℚ) + 1/2⌋ := Int.floor_le_floor (by linarith)
  have h2 : (⌊(100 : ℚ) + 1/2⌋ : ℤ) = 100 := by norm_num
  rw [h2] at hmono
  exact hmono

lemma scoreCategories_some_score (results : ResultsMap) :
    ∀ (config : Config) (out : List ScoredCategory),
      scoreCategories results config = some out →
      ∀ cat ∈ out,
        cat.score = jsRound (arithmeticMean (cat.audits.map ScoredAudit.meanItem)) := by
  intro config
  induction config with
  | nil =>
    intro out h
    simp [scoreCategories] at h
    subst h
    intro cat hcat
    exact absurd hcat (List.not_mem_nil cat)
  | cons p rest ih =>
    obtain ⟨k, category⟩ := p
    intro out h
    simp only [scoreCategories, Option.bind_eq_bind, Option.bind_eq_some,
      Option.some.injEq] at h
    obtain ⟨audits, haudits, others, hothers, hout⟩ := h
    subst hout
    intro cat hcat
    rcases List.mem_cons.mp hcat with h1 | h2
    · subst h1
      rfl
    · exact ih others hothers cat h2

lemma generateReportJson_parts (config : Config) (results : ResultsMap)
    (tree : ReportScoreTree) (h : generateReportJson config results = some tree) :
    scoreCategories results config = some tree.categories ∧
    tree.score = arithmeticMean (tree.categories.map ScoredCategory.meanItem) := by
  simp only [generateReportJson, Option.bind_eq_bind, Option.bind_eq_some,
    Option.some.injEq] at h
  obtain ⟨cats, hcats, htree⟩ := h
  subst htree
  exact ⟨hcats, rfl⟩

/-- C4 (counterexample): a single audit with raw score 1000 and weight 1
yields category score 1000, an integer but far outside [0, 100]. -/
theorem generateReportJson_score_beyond_100_cex :
    ((generateReportJson
        [("cat", ⟨"Cat", "", .num (.fin 1), [⟨"a", .num (.fin 1)⟩]⟩)]
        [("a", ⟨.num (.fin 1000)⟩)]).map
      (fun t => t.categories.map (fun c => c.score)))
      = some [JSNum.fin 1000] ∧ ¬ ((1000 : ℚ) ≤ 100) := by
  constructor
  · norm_num +decide [generateReportJson, scoreCategories, scoreAudits, lookupId,
      normalizeScore, ScoredAudit.meanItem, ScoredCategory.meanItem, jsRound,
      arithmeticMean, meanFold, coerceOrZero, JSVal.toNumber, JSNum.truthy,
      JSNum.add, JSNum.mul, JSNum.div]
  · norm_num

/-- C4 (amended): every output category score is the round-half-up of the
weighted mean of its audits, and the overall score is that weighted mean over
the categories left unrounded; the category score is an integer in [0, 100]
provided every normalized audit score lies in [0, 100] and every audit weight
coerces to a nonnegative finite number (the raw inputs do not force this). -/
theorem generateReportJson_scores (config : Config) (results : ResultsMap)
    (tree : ReportScoreTree) (hgen : generateReportJson config results = some tree) :
    tree.score = arithmeticMean (tree.categories.map ScoredCategory.meanItem) ∧
    ∀ cat ∈ tree.categories,
      cat.score = jsRound (arithmeticMean (cat.audits.map ScoredAudit.meanItem)) ∧
      ((∀ a ∈ cat.audits,
          (∃ s : ℚ, a.score = JSNum.fin s ∧ 0 ≤ s ∧ s ≤ 100) ∧
          (∃ w : ℚ, coerceOrZero a.weight = JSNum.fin w ∧ 0 ≤ w)) →
        ∃ n : ℤ, cat.score = JSNum.fin (n : ℚ) ∧ 0 ≤ n ∧ n ≤ 100) := by
  obtain ⟨hcats, hscore⟩ := generateReportJson_parts config results tree hgen
  refine ⟨hscore, ?_⟩
  intro cat hcat
  have heq := scoreCategories_some_score results config tree.categories hcats cat hcat
  refine ⟨heq, ?_⟩
  intro haud
  have hitems : ∀ it ∈ cat.audits.map ScoredAudit.meanItem,
      (∃ s : ℚ, coerceOrZero it.score = .fin s ∧ 0 ≤ s ∧ s ≤ 100) ∧
      (∃ w : ℚ, coerceOrZero it.weight = .fin w ∧ 0 ≤ w) := by
    intro it hit
    obtain ⟨a, ha, rfl⟩ := List.mem_map.mp hit
    obtain ⟨⟨s, hs, hs0, hs100⟩, hw⟩ := haud a ha
    constructor
    · by_cases hsz : s = 0
      · refine ⟨0, ?_, le_rfl, by norm_num⟩
        simp [ScoredAudit.meanItem, coerceOrZero, JSVal.toNumber, hs, hsz, JSNum.truthy]
      · refine ⟨s, ?_, hs0, hs100⟩
        simp [ScoredAudit.meanItem, coerceOrZero, JSVal.toNumber, hs, JSNum.truthy, hsz]
    · exact hw
  obtain ⟨q, hqe, hq0, hq100⟩ := arithmeticMean_bounds _ hitems
  rw [heq, hqe]
  exact jsRound_int_bounds q hq0 hq100

/-- C4 (witness): a category with no audits gets the integer score 0, inside
[0, 100]. -/
theorem generateReportJson_scores_witness :
    ∃ n : ℤ, (ScoredCategory.mk "C" "" (.num (.fin 1)) [] (.fin 0)).score
      = JSNum.fin (n : ℚ) ∧ 0 ≤ n ∧ n ≤ 100 := by
  have h := generateReportJson_scores [("c", ⟨"C", "", .num (.fin 1), []⟩)] []
    ⟨.fin 0, [⟨"C", "", .num (.fin 1), [], .fin 0⟩]⟩
    (by norm_num [generateReportJson, scoreCategories, scoreAudits, lookupId,
      normalizeScore, ScoredAudit.meanItem, ScoredCategory.meanItem, jsRound,
      arithmeticMean, meanFold, coerceOrZero, JSVal.toNumber, JSNum.truthy,
      JSNum.add, JSNum.mul, JSNum.div])
  exact (h.2 ⟨"C", "", .num (.fin 1), [], .fin 0⟩ (List.mem_cons_self _ _)).2
    (by simp)

lemma scoreAudits_some_ids (results : ResultsMap) :
    ∀ (audits : List AuditDef) (out : List ScoredAudit),
      scoreAudits results audits = some out →
      out.map (fun a => a.id) = audits.map (fun a => a.id) := by
  intro audits
  induction audits with
  | nil =>
    intro out h
    simp only [scoreAudits, Option.some.injEq] at h
    subst h
    rfl
  | cons a rest ih =>
    intro out h
    simp only [scoreAudits, Option.bind_eq_bind, Option.bind_eq_some,
      Option.some.injEq] at h
    obtain ⟨r, hr, others, hothers, hout⟩ := h
    subst hout
    simp [ih others hothers]

lemma scoreCategories_some_shape (results : ResultsMap) :
    ∀ (config : Config) (out : List ScoredCategory),
      scoreCategories results config = some out →
      out.map (fun c => (c.name, c.audits.map (fun a => a.id)))
        = config.map (fun p => (p.2.name, p.2.audits.map (fun a => a.id))) := by
  intro config
  induction config with
  | nil =>
    intro out h
    simp only [scoreCategories, Option.some.injEq] at h
    subst h
    rfl
  | cons p rest ih =>
    obtain ⟨k, category⟩ := p
    intro out h
    simp only [scoreCategories, Option.bind_eq_bind, Option.bind_eq_some,
      Option.some.injEq] at h
    obtain ⟨audits, haudits, others, hothers, hout⟩ := h
    subst hout
    simp [ih others hothers, scoreAudits_some_ids results category.audits audits haudits]

lemma scoreAudits_results_congr (r1 r2 : ResultsMap)
    (hk : ∀ k, lookupId r1 k = lookupId r2 k) :
    ∀ audits : List AuditDef, scoreAudits r1 audits = scoreAudits r2 audits := by
  intro audits
  induction audits with
  | nil => rfl
  | cons a rest ih =>
    simp only [scoreAudits]
    rw [hk a.id, ih]

lemma scoreCategories_results_congr (r1 r2 : ResultsMap)
    (hk : ∀ k, lookupId r1 k = lookupId r2 k) :
    ∀ config : Config, scoreCategories r1 config = scoreCategories r2 config := by
  intro config
  induction config with
  | nil => rfl
  | cons p rest ih =>
    obtain ⟨k, category⟩ := p
    simp only [scoreCategories]
    rw [scoreAudits_results_congr r1 r2 hk category.audits, ih]

/-- C6: the output category sequence carries the configuration names in
configuration order and each category carries its audit ids in configuration
order; and the output depends on the results mapping only through key lookup,
so two results objects that agree as key-to-value maps (whatever their key
insertion order) give identical reports. -/
theorem generateReportJson_order (config : Config) :
    (∀ (results : ResultsMap) (tree : ReportScoreTree),
      generateReportJson config results = some tree →
      tree.categories.map (fun c => (c.name, c.audits.map (fun a => a.id)))
        = config.map (fun p => (p.2.name, p.2.audits.map (fun a => a.id)))) ∧
    (∀ r1 r2 : ResultsMap, (∀ k, lookupId r1 k = lookupId r2 k) →
      generateReportJson config r1 = generateReportJson config r2) := by
  constructor
  · intro results tree hgen
    obtain ⟨hcats, _⟩ := generateReportJson_parts config results tree hgen
    exact scoreCategories_some_shape results config tree.categories hcats
  · intro r1 r2 hk
    unfold generateReportJson
    rw [scoreCategories_results_congr r1 r2 hk config]

/-- C6 (witness): a two-audit configuration rendered against the same results
stored in both key orders gives identical outputs, and the output order of a
computed tree matches the configuration order. -/
theorem generateReportJson_order_witness :
    ((⟨.fin 55, [⟨"Cat", "", .num (.fin 1),
        [⟨"a", .num (.fin 1), ⟨.num (.fin 10)⟩, .fin 10⟩,
         ⟨"b", .num (.fin 1), ⟨.bool true⟩, .fin 100⟩], .fin 55⟩]⟩ :
          ReportScoreTree).categories.map
        (fun c => (c.name, c.audits.map (fun a => a.id)))
      = ([("cat", ⟨"Cat", "", .num (.fin 1),
          [⟨"a", .num (.fin 1)⟩, ⟨"b", .num (.fin 1)⟩]⟩)] : Config).map
        (fun p => (p.2.name, p.2.audits.map (fun a => a.id)))) ∧
    generateReportJson
      [("cat", ⟨"Cat", "", .num (.fin 1), [⟨"a", .num (.fin 1)⟩, ⟨"b", .num (.fin 1)⟩]⟩)]
      [("a", ⟨.num (.fin 10)⟩), ("b", ⟨.bool true⟩)]
    = generateReportJson
      [("cat", ⟨"Cat", "", .num (.fin 1), [⟨"a", .num (.fin 1)⟩, ⟨"b", .num (.fin 1)⟩]⟩)]
      [("b", ⟨.bool true⟩), ("a", ⟨.num (.fin 10)⟩)] := by
  constructor
  · exact (generateReportJson_order _).1
      [("a", ⟨.num (.fin 10)⟩), ("b", ⟨.bool true⟩)]
      ⟨.fin 55, [⟨"Cat", "", .num (.fin 1),
        [⟨"a", .num (.fin 1), ⟨.num (.fin 10)⟩, .fin 10⟩,
         ⟨"b", .num (.fin 1), ⟨.bool true⟩, .fin 100⟩], .fin 55⟩]⟩
      (by norm_num +decide [generateReportJson, scoreCategories, scoreAudits, lookupId,
        normalizeScore, ScoredAudit.meanItem, ScoredCategory.meanItem, jsRound,
        arithmeticMean, meanFold, coerceOrZero, JSVal.toNumber, JSNum.truthy,
        JSNum.add, JSNum.mul, JSNum.div])
  · refine (generateReportJson_order _).2 _ _ ?_
    intro k
    by_cases ha : "a" = k
    · by_cases hb : "b" = k
      · rw [← ha] at hb
        exact absurd hb (by decide)
      · simp [lookupId, ha, hb]
    · by_cases hb : "b" = k
      · simp [lookupId, ha, hb]
      · simp [lookupId, ha, hb]

/-- C1 (code bug evaluation): for a category, _renderScore picks the
placeholder precision string category, which calculateRating does not
recognize and treats as binary, so a category score of 92 is rated fail;
the numeric precision named by the claim would rate it pass. -/
theorem renderScore_category_rating_fail :
    (∀ c : CategoryJSON,
      calculateRating (.fin 92) (_renderScorePrecision (.category c)) = "fail") ∧
    calculateRating (.fin 92) "numeric" = "pass" ∧
    calculateRating (.fin 92) "category" = "fail" := by
  exact ⟨fun c => rfl, by decide, by decide⟩

/-- C3: renderReport is the single recovery boundary: when the recursive
render succeeds the element is returned as is, and when any step of it throws
the caller still receives an element, namely the exception element whose text
is the stack of the thrown error; a details node whose tag is none of text,
block and list makes _renderDetails throw the descriptive unknown-type error
at the point of detection. -/
theorem renderReport_exception_boundary (dom : Document) (report : ReportJSON)
    (d : DetailsJSON) :
    (∀ e, _renderReport dom report = Except.ok e → renderReport dom report = e) ∧
    (∀ err, _renderReport dom report = Except.error err →
      renderReport dom report = _renderException err ∧
      (renderReport dom report).textContent = err.stack ∧
      (renderReport dom report).classes = ["lighthouse-exception"]) ∧
    (d.type ≠ "text" → d.type ≠ "block" → d.type ≠ "list" →
      _renderDetails dom d = Except.error ⟨"Unknown type: " ++ d.type⟩) := by
  refine ⟨?_, ?_, ?_⟩
  · intro e he
    simp [renderReport, he]
  · intro err herr
    have hr : renderReport dom report = _renderException err := by
      simp [renderReport, herr]
    exact ⟨hr, by rw [hr]; rfl, by rw [hr]; rfl⟩
  · obtain ⟨ty, tx, hd, its⟩ := d
    intro h1 h2 h3
    simp only [DetailsJSON.type] at h1 h2 h3
    simp [_renderDetails, h1, h2, h3, DetailsJSON.type]

/-- C3 (witness): the sample report holds a details node of unknown tag
graph; the recursive render throws the descriptive error and renderReport
returns the exception element instead of propagating it. -/
theorem renderReport_exception_boundary_witness :
    renderReport sampleDoc sampleReport = _renderException ⟨"Unknown type: graph"⟩ ∧
    _renderDetails sampleDoc graphNode = Except.error ⟨"Unknown type: graph"⟩ := by
  refine ⟨((renderReport_exception_boundary sampleDoc sampleReport graphNode).2.1
    ⟨"Unknown type: graph"⟩ rfl).1, ?_⟩
  exact (renderReport_exception_boundary sampleDoc sampleReport graphNode).2.2
    (by decide) (by decide) (by decide)

/-- C9 (counterexample): the display-value separator in the audit title is a
colon followed by two spaces, not the single space of the claim, and an
empty display value that is present on the result adds no suffix at all. -/
theorem renderAuditTitle_separator_cex :
    renderAuditTitle ⟨"D", some "5s", none, "", none⟩ = "D:  5s" ∧
    "D:  5s" ≠ "D: 5s" ∧
    renderAuditTitle ⟨"D", some "", none, "", none⟩ = "D" := by
  exact ⟨rfl, by decide, rfl⟩

/-- C9 (amended): the audit title is the result description, followed by a
colon and two spaces plus the display value exactly when that field is
present and non-empty, followed by the target suffix exactly when the optimal
value is present and non-empty. -/
theorem renderAuditTitle_suffixes (result : AuditResult) :
    ((result.displayValue = none ∨ result.displayValue = some "") →
      (result.optimalValue = none ∨ result.optimalValue = some "") →
      renderAuditTitle result = result.description) ∧
    (∀ v, v ≠ "" → result.displayValue = some v →
      (result.optimalValue = none ∨ result.optimalValue = some "") →
      renderAuditTitle result = result.description ++ ":  " ++ v) ∧
    (∀ w, w ≠ "" → result.optimalValue = some w →
      (result.displayValue = none ∨ result.displayValue = some "") →
      renderAuditTitle result = result.description ++ " (target: " ++ w ++ ")") ∧
    (∀ v w, v ≠ "" → w ≠ "" → result.displayValue = some v →
      result.optimalValue = some w →
      renderAuditTitle result
        = result.description ++ ":  " ++ v ++ " (target: " ++ w ++ ")") := by
  refine ⟨?_, ?_, ?_, ?_⟩
  · intro hdv hov
    rcases hdv with hdv | hdv <;> rcases hov with hov | hov <;>
      simp [renderAuditTitle, hdv, hov]
  · intro v hv hdv hov
    rcases hov with hov | hov <;> simp [renderAuditTitle, hdv, hov, hv]
  · intro w hw hov hdv
    rcases hdv with hdv | hdv <;> simp [renderAuditTitle, hdv, hov, hw]
  · intro v w hv hw hdv hov
    simp [renderAuditTitle, hdv, hov, hv, hw]

/-- C9 (witness): both suffixes at once on concrete field values. -/
theorem renderAuditTitle_suffixes_witness :
    renderAuditTitle ⟨"D", some "5s", some "2s", "", none⟩
      = "D" ++ ":  " ++ "5s" ++ " (target: " ++ "2s" ++ ")" :=
  (renderAuditTitle_suffixes ⟨"D", some "5s", some "2s", "", none⟩).2.2.2 "5s" "2s"
    (by decide) (by decide) rfl rfl

lemma firstOcc_append (sep : List Char) :
    ∀ (s pre post : List Char), firstOcc sep s = some (pre, post) →
      s = pre ++ sep ++ post := by
  intro s
  induction s with
  | nil =>
    intro pre post h
    simp [firstOcc] at h
  | cons c rest ih =>
    intro pre post h
    by_cases hp : sep.isPrefixOf (c :: rest)
    · rw [firstOcc, if_pos hp] at h
      rw [Option.some.injEq, Prod.mk.injEq] at h
      obtain ⟨h1, h2⟩ := h
      subst h1
      subst h2
      obtain ⟨t, ht⟩ := List.isPrefixOf_iff_prefix.mp hp
      rw [← ht, List.drop_left]
      simp
    · rw [firstOcc, if_neg hp] at h
      cases ho : firstOcc sep rest with
      | none =>
        rw [ho] at h
        simp at h
      | some pr =>
        obtain ⟨pre2, post2⟩ := pr
        rw [ho] at h
        rw [Option.some.injEq, Prod.mk.injEq] at h
        obtain ⟨h1, h2⟩ := h
        subst h1
        subst h2
        rw [ih pre2 post2 ho]
        simp

lemma firstOcc_post_lt (sep : List Char) (hsep : sep ≠ []) (s pre post : List Char)
    (h : firstOcc sep s = some (pre, post)) : post.length < s.length := by
  have happ := firstOcc_append sep s pre post h
  have hlen := congrArg List.length happ
  simp only [List.length_append] at hlen
  have hpos : 1 ≤ sep.length := List.length_pos.mpr hsep
  omega

lemma firstOcc_occurs (sep s pre post : List Char)
    (h : firstOcc sep s = some (pre, post)) : sep <:+: s :=
  ⟨pre, post, (firstOcc_append sep s pre post h).symm⟩

lemma firstOcc_eq_none (sep s : List Char) (h : ¬ sep <:+: s) :
    firstOcc sep s = none := by
  cases ho : firstOcc sep s with
  | none => rfl
  | some pr =>
    obtain ⟨pre, post⟩ := pr
    exact absurd (firstOcc_occurs sep s pre post ho) h

lemma splitGoF_ne_nil (fuel : Nat) (sep s : List Char) : splitGoF fuel sep s ≠ [] := by
  cases fuel with
  | zero => simp [splitGoF]
  | succ f =>
    cases ho : firstOcc sep s with
    | none => simp [splitGoF, ho]
    | some pr =>
      obtain ⟨pre, post⟩ := pr
      simp [splitGoF, ho]

lemma joinWith_cons (sep x : List Char) (ps : List (List Char)) (h : ps ≠ []) :
    joinWith sep (x :: ps) = x ++ sep ++ joinWith sep ps := by
  cases ps with
  | nil => exact absurd rfl h
  | cons y ys => rfl

lemma splitGoF_join (sep : List Char) (hsep : sep ≠ []) :
    ∀ (fuel : Nat) (s : List Char), s.length < fuel →
      joinWith sep (splitGoF fuel sep s) = s := by
  intro fuel
  induction fuel with
  | zero =>
    intro s hs
    exact absurd hs (Nat.not_lt_zero _)
  | succ f ih =>
    intro s hs
    cases ho : firstOcc sep s with
    | none => simp [splitGoF, ho, joinWith]
    | some pr =>
      obtain ⟨pre, post⟩ := pr
      have hpost := firstOcc_post_lt sep hsep s pre post ho
      have happ := firstOcc_append sep s pre post ho
      simp only [splitGoF, ho]
      rw [joinWith_cons sep pre _ (splitGoF_ne_nil f sep post), ih post (by omega)]
      exact happ.symm

lemma joinWith_nil_singletons : ∀ s : List Char, joinWith [] (s.map (fun c => [c])) = s := by
  intro s
  induction s with
  | nil => rfl
  | cons c rest ih =>
    cases rest with
    | nil => rfl
    | cons d ds =>
      rw [List.map_cons, joinWith_cons [] [c] _ (by simp)]
      rw [ih]
      simp

lemma jsSplit_join (sep source : List Char) : joinWith sep (jsSplit sep source) = source := by
  by_cases hsep : sep.isEmpty
  · have hnil : sep = [] := by
      cases sep with
      | nil => rfl
      | cons c cs => simp [List.isEmpty] at hsep
    subst hnil
    have hsplit : jsSplit [] source = source.map (fun c => [c]) := by
      simp [jsSplit]
    rw [hsplit]
    exact joinWith_nil_singletons source
  · have hne : sep ≠ [] := by
      intro h
      subst h
      simp at hsep
    rw [jsSplit, if_neg hsep]
    exact splitGoF_join sep hne (source.length + 1) source (by omega)

lemma splitGoF_parts_within (sep : List Char) (hsep : sep ≠ []) :
    ∀ (fuel : Nat) (s part : List Char), s.length < fuel →
      part ∈ splitGoF fuel sep s → part <:+: s := by
  intro fuel
  induction fuel with
  | zero =>
    intro s part hs _
    exact absurd hs (Nat.not_lt_zero _)
  | succ f ih =>
    intro s part hs hmem
    cases ho : firstOcc sep s with
    | none =>
      simp only [splitGoF, ho, List.mem_singleton] at hmem
      subst hmem
      exact List.infix_refl part
    | some pr =>
      obtain ⟨pre, post⟩ := pr
      have happ := firstOcc_append sep s pre post ho
      have hpost := firstOcc_post_lt sep hsep s pre post ho
      simp only [splitGoF, ho, List.mem_cons] at hmem
      rcases hmem with rfl | hmem
      · exact ⟨[], sep ++ post, by simp [happ]⟩
      · exact (ih post part (by omega) hmem).trans ⟨pre ++ sep, [], by simp [happ]⟩

lemma mem_singletons_within : ∀ (s part : List Char), part ∈ s.map (fun c => [c]) →
    part <:+: s := by
  intro s
  induction s with
  | nil =>
    intro part h
    simp at h
  | cons c rest ih =>
    intro part h
    rw [List.map_cons, List.mem_cons] at h
    rcases h with rfl | h
    · exact ⟨[], rest, rfl⟩
    · exact (ih part h).trans ⟨[c], [], by simp⟩

lemma jsSplit_part_within (sep source part : List Char) (h : part ∈ jsSplit sep source) :
    part <:+: source := by
  by_cases hsep : sep.isEmpty
  · rw [jsSplit, if_pos hsep] at h
    exact mem_singletons_within source part h
  · have hne : sep ≠ [] := by
      intro hh
      subst hh
      simp at hsep
    rw [jsSplit, if_neg hsep] at h
    exact splitGoF_parts_within sep hne (source.length + 1) source part (by omega) h

lemma jsSplit_no_occ (sep source : List Char) (hsep : sep ≠ [])
    (h : ¬ sep <:+: source) : jsSplit sep source = [source] := by
  have hne : ¬ sep.isEmpty := by
    cases sep with
    | nil => exact absurd rfl hsep
    | cons c cs => simp [List.isEmpty]
  rw [jsSplit, if_neg hne]
  simp [splitGoF, firstOcc_eq_none sep source h]

lemma replaceStringsFn_no_occ : ∀ (ps : List (List Char × List Char)) (src : List Char),
    (∀ p ∈ ps, p.1 ≠ [] ∧ ¬ p.1 <:+: src) → replaceStringsFn ps src = src := by
  intro ps
  induction ps with
  | nil =>
    intro src _
    rfl
  | cons p rest ih =>
    obtain ⟨sch, rep⟩ := p
    intro src h
    obtain ⟨hne, hocc⟩ := h (sch, rep) (List.mem_cons_self _ _)
    simp only [replaceStringsFn]
    rw [jsSplit_no_occ sch src hne hocc]
    rw [List.map_singleton, ih src (fun q hq => h q (List.mem_cons_of_mem _ hq))]
    rfl

/-- C10 (counterexample): with pairs (a to empty) then (ab to Z) on source
xaby, the occurrence of ab in the original source is not substituted: the
first split destroys it, so the output xby contains no Z (and no longer the
occurrence of ab either). -/
theorem replaceStrings_overlap_cex :
    "ab".toList <:+: "xaby".toList ∧
    replaceStrings "xaby".toList [("a".toList, ([] : List Char)), ("ab".toList, "Z".toList)]
      = "xby".toList ∧
    ¬ "Z".toList <:+: "xby".toList ∧
    ¬ "ab".toList <:+: "xby".toList := by decide

/-- C10 (amended): replaceStrings applies the pairs sequentially: with the
empty pair list the source is returned unchanged; splitting on a pattern and
joining with that pattern restores the source, so the substitution replaces
exactly the leftmost non-overlapping occurrences found at the turn of each
pattern; and inserted replacement text is never rescanned: a later pattern
that does not occur in the text being processed has no effect, even when it
occurs inside an earlier replacement string. -/
theorem replaceStrings_no_rescan :
    (∀ source : List Char, replaceStrings source [] = source) ∧
    (∀ sep source : List Char, joinWith sep (jsSplit sep source) = source) ∧
    (∀ s1 r1 s2 r2 source : List Char, s2 ≠ [] → ¬ s2 <:+: source →
      replaceStrings source [(s1, r1), (s2, r2)] = joinWith r1 (jsSplit s1 source)) := by
  refine ⟨fun source => rfl, jsSplit_join, ?_⟩
  intro s1 r1 s2 r2 source hne hocc
  show joinWith r1 ((jsSplit s1 source).map (replaceStringsFn [(s2, r2)]))
    = joinWith r1 (jsSplit s1 source)
  congr 1
  have hparts : ∀ part ∈ jsSplit s1 source, replaceStringsFn [(s2, r2)] part = part := by
    intro part hp
    refine replaceStringsFn_no_occ [(s2, r2)] part ?_
    intro q hq
    rw [List.mem_singleton] at hq
    subst hq
    exact ⟨hne, fun hc => hocc (hc.trans (jsSplit_part_within s1 source part hp))⟩
  rw [List.map_congr_left hparts]
  simp

/-- C10 (witness): the pattern Q occurs only inside the replacement QQ for X;
the second pair is a no-op, so both inserted Q characters survive in the
output aQQb. -/
theorem replaceStrings_no_rescan_witness :
    replaceStrings "aXb".toList [("X".toList, "QQ".toList), ("Q".toList, "!".toList)]
      = joinWith "QQ".toList (jsSplit "X".toList "aXb".toList) :=
  replaceStrings_no_rescan.2.2 "X".toList "QQ".toList "Q".toList "!".toList "aXb".toList
    (by decide) (by decide)
